import Mathlib

/-!
Shallow embedding of the Smart_Money_Marker ingestion-and-query core:
`database/models.py` (WalletModel), `database/mongo_client.py`
(MongoClientWrapper) and `sol_wallets_scraper.py` (SOLWalletsScraper).

Wallet documents are Python dicts.  The fields the verified operations
inspect are `wallet_address`, `winrate_7d` and `scrapeTimestamp`; all other
fields are carried opaquely (the spec itself recommends modelling the record
as a few typed fields plus an opaque payload).  `Option` encodes field
absence: `wallet_address = none` means the key is missing from the dict,
`winrate_7d = some none` means the key is present with value `null`/`None`,
`winrate_7d = some (some q)` a numeric value (numerics are modelled as `ℚ`;
only order comparisons occur, never rounding).  Timestamps are `ℤ` (UTC
instants); `datetime.utcnow()` becomes an explicit `now : ℤ` parameter.

Python functions that mutate a caller's dict in place are embedded as
functions that also return the post-call state of that dict, so frame/effect
claims (does the callee mutate its argument?) are expressible: the MongoDB
store is a `List Doc` threaded through the storage operations.
-/

namespace SmartMoney

/-- A wallet document (Python dict).  `payload` stands for all fields the
verified code never inspects, so that distinct documents stay distinct. -/
structure Doc where
  wallet_address : Option String
  winrate_7d : Option (Option ℚ)
  scrapeTimestamp : Option ℤ
  payload : String
deriving DecidableEq, Repr

/-! ## Record model (`database/models.py`, class WalletModel) -/

/-- WalletModel.filter_by_winrate: for each wallet the code reads
`wallet.get(winrate_7d, 0)` — a missing key defaults to the number `0` —
and keeps the wallet when `winrate is not None and winrate >= min_winrate`. -/
def filter_by_winrate (wallets : List Doc) (min_winrate : ℚ) : List Doc :=
  wallets.filter (fun wallet =>
    match wallet.winrate_7d.getD (some 0) with
    | none => false
    | some winrate => min_winrate ≤ winrate)

/-- WalletModel._validate_wallet_data: every required field (currently just
`wallet_address`) must be present and truthy (`field not in wallet_data or
not wallet_data[field]` fails validation; the empty string is falsy). -/
def validate_wallet_data (wallet_data : Doc) : Bool :=
  match wallet_data.wallet_address with
  | none => false
  | some a => !(a = "")

/-- WalletModel.enrich_wallet_data: copies the raw dict
(`raw_wallet_data.copy()`), stamps `scrapeTimestamp` on the copy, validates,
and returns the enriched copy or `None`.  The first component of the result
is the caller's dict after the call: the code only ever writes to the copy,
so it is returned unchanged. -/
def enrich_wallet_data (raw_wallet_data : Doc) (now : ℤ) : Doc × Option Doc :=
  let enriched_data := { raw_wallet_data with scrapeTimestamp := some now }
  if validate_wallet_data enriched_data then
    (raw_wallet_data, some enriched_data)
  else
    (raw_wallet_data, none)

/-! ## Storage gateway (`database/mongo_client.py`, class MongoClientWrapper)

The collection is a list of documents.  `_create_indexes` installs a unique
index on `wallet_address`; the reachable-state theorems below show the
upsert paths themselves never produce a duplicate address, because every
write goes through `replace_one` keyed on the document's own address. -/

/-- Mongo `collection.replace_one({"wallet_address": addr}, doc, upsert=True)`:
replace the first document whose `wallet_address` equals `addr`, else insert
`doc`.  The Bool is whether an insert happened (`result.upserted_id`). -/
def replace_one : List Doc → String → Doc → List Doc × Bool
  | [], _, doc => ([doc], true)
  | d :: ds, addr, doc =>
    if d.wallet_address = some addr then
      (doc :: ds, false)
    else
      let r := replace_one ds addr doc
      (d :: r.1, r.2)

/-- The in-place stamping both upsert paths perform first:
`if scrapeTimestamp not in wallet_data, set wallet_data[scrapeTimestamp] = utcnow()`. -/
def stampTimestamp (wallet_data : Doc) (now : ℤ) : Doc :=
  match wallet_data.scrapeTimestamp with
  | none => { wallet_data with scrapeTimestamp := some now }
  | some _ => wallet_data

/-- MongoClientWrapper.upsert_wallet: stamps `scrapeTimestamp` into the
caller's dict if missing, then calls `replace_one` keyed on
`wallet_data[wallet_address]` and returns `True`; a missing address raises
`KeyError` before any write, which the blanket handler turns into `False`.
Result: (store after the call, caller's dict after the call, returned bool).
The insert/replace distinction is only logged, never returned. -/
def upsert_wallet (store : List Doc) (wallet_data : Doc) (now : ℤ) :
    List Doc × Doc × Bool :=
  let wallet_data := stampTimestamp wallet_data now
  match wallet_data.wallet_address with
  | none => (store, wallet_data, false)
  | some addr => ((replace_one store addr wallet_data).1, wallet_data, true)

/-- The inserted/updated/errors counter dict returned by
`upsert_wallets_batch`. -/
structure RunStats where
  inserted : ℕ
  updated : ℕ
  errors : ℕ
deriving DecidableEq, Repr

/-- Componentwise addition of batch statistics. -/
def RunStats.add (s t : RunStats) : RunStats :=
  ⟨s.inserted + t.inserted, s.updated + t.updated, s.errors + t.errors⟩

instance : Add RunStats := ⟨RunStats.add⟩

/-- MongoClientWrapper.upsert_wallets_batch: for each wallet, stamp
`scrapeTimestamp` in place if missing, `replace_one` keyed on the wallet's
address, and bump `inserted` or `updated` by `result.upserted_id`; a wallet
whose dict lacks `wallet_address` raises inside its own iteration, bumping
`errors`, and the loop continues with the next wallet.  Result: (store after
the batch, the caller's dicts after the batch, stats). -/
def upsert_wallets_batch (store : List Doc) (wallets : List Doc) (now : ℤ) :
    List Doc × List Doc × RunStats :=
  match wallets with
  | [] => (store, [], ⟨0, 0, 0⟩)
  | wallet :: rest =>
    let wallet := stampTimestamp wallet now
    match wallet.wallet_address with
    | none =>
      let r := upsert_wallets_batch store rest now
      (r.1, wallet :: r.2.1, RunStats.add ⟨0, 0, 1⟩ r.2.2)
    | some addr =>
      let one := replace_one store addr wallet
      let r := upsert_wallets_batch one.1 rest now
      (r.1, wallet :: r.2.1,
        RunStats.add (if one.2 then ⟨1, 0, 0⟩ else ⟨0, 1, 0⟩) r.2.2)

/-- Truthiness of the optional `limit` argument: Python `if limit:` is false
for `None` and for `0`. -/
def limitTruthy : Option ℕ → Bool
  | none => false
  | some n => !(n = 0)

/-- The winrate clause of the query built by `get_wallets`: when
`min_winrate` is set the filter contains a winrate_7d $gte m clause,
which matches exactly the documents whose `winrate_7d` is a number `≥ m`
(Mongo `$gte` against a number matches neither a missing field nor null). -/
def winrateCond (min_winrate : Option ℚ) (d : Doc) : Bool :=
  match min_winrate with
  | none => true
  | some m =>
    match d.winrate_7d with
    | some (some q) => m ≤ q
    | _ => false

/-- The date clause of the query built by `get_wallets`: only added when
`start_date or end_date` (datetimes are always truthy, so: at least one is
not `None`); then the document must carry a `scrapeTimestamp` that is `$gte`
the start bound (when given) and `$lte` the end bound (when given). -/
def dateCond (start_date end_date : Option ℤ) (d : Doc) : Bool :=
  match start_date, end_date with
  | none, none => true
  | _, _ =>
    match d.scrapeTimestamp with
    | none => false
    | some t =>
      (match start_date with
       | none => true
       | some s => s ≤ t) &&
      (match end_date with
       | none => true
       | some e => t ≤ e)

/-- BSON ascending order on the `scrapeTimestamp` key: a missing field sorts
before every concrete timestamp. -/
def tsLe : Option ℤ → Option ℤ → Bool
  | none, _ => true
  | some _, none => false
  | some a, some b => a ≤ b

/-- Insert a document into a list that is sorted by `scrapeTimestamp`
descending, keeping it sorted. -/
def insertTsDesc (d : Doc) : List Doc → List Doc
  | [] => [d]
  | e :: es =>
    if tsLe e.scrapeTimestamp d.scrapeTimestamp then
      d :: e :: es
    else
      e :: insertTsDesc d es

/-- The cursor's `.sort(scrapeTimestamp, -1)`: sort by `scrapeTimestamp`
descending (missing timestamps last), as an insertion sort. -/
def sortTsDesc : List Doc → List Doc
  | [] => []
  | d :: ds => insertTsDesc d (sortTsDesc ds)

/-- MongoClientWrapper.get_wallets: builds the conjunctive query described
by `winrateCond` and `dateCond`, sorts by `scrapeTimestamp` descending, and
applies `cursor.limit(limit)` only under `if limit:` (so `limit=0` — falsy —
applies no cap). -/
def get_wallets (store : List Doc) (min_winrate : Option ℚ)
    (limit : Option ℕ) (start_date end_date : Option ℤ) : List Doc :=
  let cursor :=
    sortTsDesc (store.filter (fun d =>
      winrateCond min_winrate d && dateCond start_date end_date d))
  if limitTruthy limit then cursor.take (limit.getD 0) else cursor

/-! ## Ingestion pipeline (`sol_wallets_scraper.py`, class SOLWalletsScraper) -/

/-- SOLWalletsScraper.enrich_wallets: runs `enrich_wallet_data` over the
filtered wallets, keeping truthy (non-`None`) results. -/
def enrich_wallets (wallets : List Doc) (now : ℤ) : List Doc :=
  wallets.filterMap (fun wallet => (enrich_wallet_data wallet now).2)

/-- SOLWalletsScraper.store_wallets: returns zero stats without touching the
store on an empty list, else delegates to `upsert_wallets_batch`.  The Bool
records whether the storage layer was invoked. -/
def store_wallets (store : List Doc) (wallets : List Doc) (now : ℤ) :
    List Doc × RunStats × Bool :=
  if wallets.isEmpty then
    (store, ⟨0, 0, 0⟩, false)
  else
    let r := upsert_wallets_batch store wallets now
    (r.1, r.2.2, true)

/-- Outcome of one `run_scrape` invocation: the returned bool, the store
afterwards, and whether any storage write was attempted. -/
structure ScrapeOutcome where
  success : Bool
  store : List Doc
  store_called : Bool
deriving DecidableEq, Repr

/-- SOLWalletsScraper.run_scrape, parameterised by the list the fetch stage
produced (the gmgn API call is external): empty fetch returns `False`;
empty winrate-filter result returns `True`; empty enrichment result returns
`False`; otherwise the batch is stored and the run returns
`storage_stats[errors] == 0`. -/
def run_scrape (raw_wallets : List Doc) (min_winrate : ℚ)
    (store : List Doc) (now : ℤ) : ScrapeOutcome :=
  if raw_wallets.isEmpty then
    ⟨false, store, false⟩
  else
    let filtered_wallets := filter_by_winrate raw_wallets min_winrate
    if filtered_wallets.isEmpty then
      ⟨true, store, false⟩
    else
      let enriched_wallets := enrich_wallets filtered_wallets now
      if enriched_wallets.isEmpty then
        ⟨false, store, false⟩
      else
        let r := store_wallets store enriched_wallets now
        ⟨r.2.1.errors = 0, r.1, r.2.2⟩

/-! ## Helper lemmas -/

/-- Stamping the timestamp never touches the wallet address. -/
theorem stampTimestamp_wallet_address (w : Doc) (now : ℤ) :
    (stampTimestamp w now).wallet_address = w.wallet_address := by
  unfold stampTimestamp
  cases w.scrapeTimestamp <;> rfl

/-- Stamping the timestamp never touches the winrate. -/
theorem stampTimestamp_winrate (w : Doc) (now : ℤ) :
    (stampTimestamp w now).winrate_7d = w.winrate_7d := by
  unfold stampTimestamp
  cases w.scrapeTimestamp <;> rfl

/-- After stamping, the record carries a timestamp. -/
theorem stampTimestamp_isSome (w : Doc) (now : ℤ) :
    (stampTimestamp w now).scrapeTimestamp.isSome := by
  unfold stampTimestamp
  cases h : w.scrapeTimestamp <;> simp [h]

/-- Stamping a record that already carries a timestamp changes nothing. -/
theorem stampTimestamp_of_isSome (w : Doc) (now : ℤ)
    (h : w.scrapeTimestamp.isSome) : stampTimestamp w now = w := by
  unfold stampTimestamp
  cases hts : w.scrapeTimestamp with
  | none => rw [hts] at h; simp at h
  | some t => rfl

/-- Stamping twice is the same as stamping once. -/
theorem stampTimestamp_stampTimestamp (w : Doc) (t1 t2 : ℤ) :
    stampTimestamp (stampTimestamp w t1) t2 = stampTimestamp w t1 :=
  stampTimestamp_of_isSome _ _ (stampTimestamp_isSome w t1)

/-- Every member of the list `replace_one` produces is the replacement
document or a member of the original list. -/
theorem replace_one_mem {x : Doc} {s : List Doc} {addr : String} {doc : Doc}
    (hx : x ∈ (replace_one s addr doc).1) : x = doc ∨ x ∈ s := by
  induction s with
  | nil =>
    simp [replace_one] at hx
    exact Or.inl hx
  | cons d ds ih =>
    by_cases hd : d.wallet_address = some addr
    · simp [replace_one, hd] at hx
      rcases hx with h | h
      · exact Or.inl h
      · exact Or.inr (List.mem_cons_of_mem _ h)
    · simp [replace_one, hd] at hx
      rcases hx with h | h
      · exact Or.inr (by simp [h])
      · rcases ih h with h1 | h1
        · exact Or.inl h1
        · exact Or.inr (List.mem_cons_of_mem _ h1)

/-- The replacement document always ends up in the store. -/
theorem replace_one_self_mem (s : List Doc) (addr : String) (doc : Doc) :
    doc ∈ (replace_one s addr doc).1 := by
  induction s with
  | nil => simp [replace_one]
  | cons d ds ih =>
    by_cases hd : d.wallet_address = some addr <;>
      simp [replace_one, hd, ih]

/-! ## C1: winrate filtering -/

/-- The amended filtering rule actually implemented: a present numeric
winrate is kept iff it meets the threshold, an explicit null winrate is
always excluded, and a missing winrate is defaulted to the number 0 (so it
is kept exactly when the threshold is at most 0). -/
def keepsWinrate (min_winrate : ℚ) (w : Doc) : Bool :=
  match w.winrate_7d with
  | none => min_winrate ≤ 0
  | some none => false
  | some (some q) => min_winrate ≤ q

/-- A raw record whose dict has no `winrate_7d` key at all. -/
def docMissingWinrate : Doc :=
  { wallet_address := some "wallet-missing-winrate"
    winrate_7d := none
    scrapeTimestamp := none
    payload := "raw" }

/-- C1 counterexample: the claim says a record with missing `winrate_7d` is
excluded for every threshold, including thresholds at most 0.  But
`filter_by_winrate` reads `wallet.get(winrate_7d, 0)`, so the missing key
is coerced to the number 0, which passes the threshold 0: the record is
kept. -/
theorem filter_by_winrate_missing_kept_at_zero :
    docMissingWinrate.winrate_7d = none ∧
      filter_by_winrate [docMissingWinrate] 0 = [docMissingWinrate] := by
  constructor
  · rfl
  · decide

/-- C1 amended: `filter_by_winrate` keeps a record iff `keepsWinrate` holds:
present numeric winrates are compared against the threshold, null winrates
are always excluded, and missing winrates are treated as the number 0
(hence kept exactly when the threshold is nonpositive). -/
theorem filter_by_winrate_amended (wallets : List Doc) (min_winrate : ℚ) :
    filter_by_winrate wallets min_winrate =
      wallets.filter (keepsWinrate min_winrate) := by
  unfold filter_by_winrate
  apply List.filter_congr
  intro w _
  unfold keepsWinrate
  cases hw : w.winrate_7d with
  | none => simp [hw]
  | some v => cases v <;> simp [hw]

/-! ## C6: what the single-record upsert returns -/

/-- A first version of a wallet document for address "A". -/
def docA1 : Doc :=
  { wallet_address := some "A"
    winrate_7d := some (some (7 / 10))
    scrapeTimestamp := none
    payload := "first fetch" }

/-- A second, different version of the wallet document for address "A". -/
def docA2 : Doc :=
  { wallet_address := some "A"
    winrate_7d := some (some (9 / 10))
    scrapeTimestamp := none
    payload := "second fetch" }

/-- C6 counterexample: the claim says `upsert_wallet` returns, to its
caller, whether it inserted or replaced.  On the empty store the operation
inserts (`replace_one` reports an upsert) and returns `true`; on the
resulting store a second call replaces (`replace_one` reports no upsert)
yet still returns `true` — the returned boolean does not encode the
insert/replace distinction, which is only logged. -/
theorem upsert_wallet_return_does_not_distinguish :
    (replace_one [] "A" (stampTimestamp docA1 0)).2 = true ∧
      (upsert_wallet [] docA1 0).2.2 = true ∧
      (replace_one (upsert_wallet [] docA1 0).1 "A"
        (stampTimestamp docA2 1)).2 = false ∧
      (upsert_wallet (upsert_wallet [] docA1 0).1 docA2 1).2.2 = true := by
  decide

/-- C6 amended: `upsert_wallet` returns only a success flag — `true`
whenever the record carries a `wallet_address` (for both the insert and the
replace case), `false` when the address key is missing and the `KeyError`
is swallowed; the insert-versus-replace outcome is logged, not returned. -/
theorem upsert_wallet_returns_success (store : List Doc) (w : Doc)
    (now : ℤ) : (upsert_wallet store w now).2.2 = w.wallet_address.isSome := by
  simp only [upsert_wallet]
  rw [stampTimestamp_wallet_address]
  cases w.wallet_address <;> rfl

/-! ## C9: enrichment does not mutate its input -/

/-- C9: `enrich_wallet_data` works on `raw_wallet_data.copy()` and only ever
writes to the copy, so the caller's record is returned unchanged (first
component of the result) whether validation succeeds or the `None` sentinel
comes back; in particular the input gains no `scrapeTimestamp` field. -/
theorem enrich_wallet_data_preserves_input (raw : Doc) (now : ℤ) :
    (enrich_wallet_data raw now).1 = raw := by
  simp only [enrich_wallet_data]
  split <;> rfl

/-! ## C10: the upsert paths stamp the caller's record in place -/

/-- C10: both `upsert_wallet` and `upsert_wallets_batch` first run
`if scrapeTimestamp missing, set wallet_data[scrapeTimestamp] = utcnow()` on the caller's dict itself: the caller's record after the call is
`stampTimestamp w now`; when the record lacked a timestamp this differs
from the input (the field was added as a side effect), when it already had
one the record is unchanged; and whenever the record carries an address the
document stored is exactly that stamped record. -/
theorem upsert_stamps_caller_record (store : List Doc) (w : Doc) (now : ℤ) :
    ((upsert_wallet store w now).2.1 = stampTimestamp w now) ∧
    ((upsert_wallets_batch store [w] now).2.1 = [stampTimestamp w now]) ∧
    (w.scrapeTimestamp = none →
      stampTimestamp w now = { w with scrapeTimestamp := some now } ∧
      stampTimestamp w now ≠ w) ∧
    (∀ t, w.scrapeTimestamp = some t → stampTimestamp w now = w) ∧
    (∀ a, w.wallet_address = some a →
      (upsert_wallet store w now).2.1 ∈ (upsert_wallet store w now).1) := by
  refine ⟨?_, ?_, ?_, ?_, ?_⟩
  · simp only [upsert_wallet]
    cases (stampTimestamp w now).wallet_address <;> rfl
  · simp only [upsert_wallets_batch]
    cases (stampTimestamp w now).wallet_address <;> rfl
  · intro hts
    have hs : stampTimestamp w now = { w with scrapeTimestamp := some now } := by
      unfold stampTimestamp
      rw [hts]
    refine ⟨hs, ?_⟩
    rw [hs]
    intro heq
    have := congrArg Doc.scrapeTimestamp heq
    rw [hts] at this
    simp at this
  · intro t hts
    unfold stampTimestamp
    rw [hts]
  · intro a ha
    have haddr : (stampTimestamp w now).wallet_address = some a := by
      rw [stampTimestamp_wallet_address, ha]
    simp only [upsert_wallet]
    rw [haddr]
    exact replace_one_self_mem _ _ _

/-- A record that arrives without a timestamp. -/
def docNoTs : Doc :=
  { wallet_address := some "A"
    winrate_7d := some (some (6 / 10))
    scrapeTimestamp := none
    payload := "fresh" }

/-- A record that already carries a timestamp. -/
def docWithTs : Doc :=
  { wallet_address := some "B"
    winrate_7d := some (some (6 / 10))
    scrapeTimestamp := some 3
    payload := "stamped" }

/-- C10 witness: the mutation theorem applied at concrete records, one
without and one with a timestamp. -/
theorem upsert_stamps_caller_record_witness :
    (stampTimestamp docNoTs 5 = { docNoTs with scrapeTimestamp := some 5 } ∧
      stampTimestamp docNoTs 5 ≠ docNoTs) ∧
    stampTimestamp docWithTs 5 = docWithTs ∧
    (upsert_wallet [] docNoTs 5).2.1 ∈ (upsert_wallet [] docNoTs 5).1 :=
  ⟨(upsert_stamps_caller_record [] docNoTs 5).2.2.1 rfl,
   (upsert_stamps_caller_record [] docWithTs 5).2.2.2.1 3 rfl,
   (upsert_stamps_caller_record [] docNoTs 5).2.2.2.2 "A" rfl⟩

/-! ## C2: store states reachable through the gateway's write operations -/

/-- The invariant exactly as the claim states it: every stored document has
a present, non-empty `wallet_address`, and no two stored documents share an
address value. -/
def StoreClaimInv (s : List Doc) : Prop :=
  (∀ d ∈ s, d.wallet_address ≠ none ∧ d.wallet_address ≠ some "") ∧
  s.Pairwise (fun d e => d.wallet_address ≠ e.wallet_address)

/-- The invariant the gateway actually maintains: every stored document has
the `wallet_address` key (records without it raise before any write), and
no two stored documents share an address value (every write is a
`replace_one` keyed on the document's own address, matching the unique
index `_create_indexes` installs). -/
def StoreAddrInv (s : List Doc) : Prop :=
  (∀ d ∈ s, d.wallet_address ≠ none) ∧
  s.Pairwise (fun d e => d.wallet_address ≠ e.wallet_address)

/-- Store states reachable from the empty collection through the storage
gateway's write operations. -/
inductive Reachable : List Doc → Prop
  | empty : Reachable []
  | upsert (s : List Doc) (w : Doc) (now : ℤ) :
      Reachable s → Reachable (upsert_wallet s w now).1
  | batch (s : List Doc) (ws : List Doc) (now : ℤ) :
      Reachable s → Reachable (upsert_wallets_batch s ws now).1

/-- Replacing-or-inserting a document keyed on its own address preserves the
address invariant. -/
theorem replace_one_preserves_inv {s : List Doc} {addr : String} {doc : Doc}
    (hdoc : doc.wallet_address = some addr) (h : StoreAddrInv s) :
    StoreAddrInv (replace_one s addr doc).1 := by
  induction s with
  | nil =>
    refine ⟨?_, ?_⟩
    · intro d hd
      simp [replace_one] at hd
      subst hd
      simp [hdoc]
    · simp [replace_one]
  | cons d ds ih =>
    obtain ⟨hall, hpw⟩ := h
    rw [List.pairwise_cons] at hpw
    obtain ⟨hd_ne, hpw_ds⟩ := hpw
    by_cases hda : d.wallet_address = some addr
    · simp only [replace_one, if_pos hda]
      refine ⟨?_, ?_⟩
      · intro e he
        rcases List.mem_cons.mp he with rfl | he
        · simp [hdoc]
        · exact hall e (List.mem_cons_of_mem _ he)
      · rw [List.pairwise_cons]
        refine ⟨?_, hpw_ds⟩
        intro e he
        rw [hdoc, ← hda]
        exact (hd_ne e he).symm ∘ Eq.symm
    · have hds : StoreAddrInv ds :=
        ⟨fun e he => hall e (List.mem_cons_of_mem _ he), hpw_ds⟩
      have htail := ih hds
      simp only [replace_one, if_neg hda]
      refine ⟨?_, ?_⟩
      · intro e he
        rcases List.mem_cons.mp he with rfl | he
        · exact hall e (List.mem_cons_self e ds)
        · exact htail.1 e he
      · rw [List.pairwise_cons]
        refine ⟨?_, htail.2⟩
        intro e he
        rcases replace_one_mem he with rfl | hmem
        · rw [hdoc]; exact hda
        · exact hd_ne e hmem

/-- The single-record upsert preserves the address invariant. -/
theorem upsert_wallet_preserves_inv (s : List Doc) (w : Doc) (now : ℤ)
    (h : StoreAddrInv s) : StoreAddrInv (upsert_wallet s w now).1 := by
  simp only [upsert_wallet]
  split
  · exact h
  · next addr heq => exact replace_one_preserves_inv heq h

/-- The batch upsert preserves the address invariant. -/
theorem upsert_wallets_batch_preserves_inv (ws : List Doc) :
    ∀ (s : List Doc) (now : ℤ), StoreAddrInv s →
      StoreAddrInv (upsert_wallets_batch s ws now).1 := by
  induction ws with
  | nil => intro s now h; exact h
  | cons w rest ih =>
    intro s now h
    simp only [upsert_wallets_batch]
    split
    · exact ih _ _ h
    · next addr heq => exact ih _ _ (replace_one_preserves_inv heq h)

/-- A malformed record carrying an empty-string address: truthiness-wise it
would fail enrichment, but the storage gateway itself accepts it. -/
def docEmptyAddr : Doc :=
  { wallet_address := some ""
    winrate_7d := some (some (9 / 10))
    scrapeTimestamp := none
    payload := "junk" }

/-- C2 counterexample: the gateway's own operations do not enforce the
non-emptiness half of the claimed invariant.  Upserting a record whose
`wallet_address` is the empty string into the empty store persists a
document with an empty address: the claimed invariant fails on a reachable
state (only enrichment, an application-layer step, rejects such records). -/
theorem store_claim_inv_not_reachable_invariant :
    ¬ (∀ s, Reachable s → StoreClaimInv s) := by
  intro hclaim
  have hreach : Reachable (upsert_wallet [] docEmptyAddr 0).1 :=
    Reachable.upsert [] docEmptyAddr 0 Reachable.empty
  have hinv := hclaim _ hreach
  have hmem : stampTimestamp docEmptyAddr 0 ∈ (upsert_wallet [] docEmptyAddr 0).1 :=
    List.mem_cons_self _ _
  exact (hinv.1 _ hmem).2 rfl

/-- C2 amended: every store state reachable through the gateway's write
operations from the empty store satisfies the invariant that each stored
document has the `wallet_address` key and no two stored documents share a
`wallet_address` value; non-emptiness of the address is not enforced by the
storage layer (it is an enrichment-layer concern). -/
theorem reachable_store_addr_inv (s : List Doc) (h : Reachable s) :
    StoreAddrInv s := by
  induction h with
  | empty => exact ⟨by simp, List.Pairwise.nil⟩
  | upsert s w now _ ih => exact upsert_wallet_preserves_inv s w now ih
  | batch s ws now _ ih => exact upsert_wallets_batch_preserves_inv ws s now ih

/-- C2 witness: the amended invariant holds at the concrete reachable state
obtained by one single-record upsert and one batch upsert. -/
theorem reachable_store_addr_inv_witness :
    StoreAddrInv (upsert_wallets_batch (upsert_wallet [] docNoTs 1).1
      [docWithTs] 2).1 :=
  reachable_store_addr_inv _
    (Reachable.batch _ [docWithTs] 2 (Reachable.upsert [] docNoTs 1 Reachable.empty))

/-! ## C5: batch accounting -/

/-- Zero statistics are a left identity for statistics addition. -/
theorem RunStats.zero_add (t : RunStats) : RunStats.add ⟨0, 0, 0⟩ t = t := by
  cases t
  simp [RunStats.add]

/-- Statistics addition is associative. -/
theorem RunStats.add_assoc (a b c : RunStats) :
    RunStats.add (RunStats.add a b) c = RunStats.add a (RunStats.add b c) := by
  cases a; cases b; cases c
  simp [RunStats.add, Nat.add_assoc]

/-- Counter totals: every record of a batch bumps exactly one of the three
counters, so they always sum to the batch length. -/
theorem upsert_wallets_batch_counts (ws : List Doc) :
    ∀ (s : List Doc) (now : ℤ),
      (upsert_wallets_batch s ws now).2.2.inserted +
        (upsert_wallets_batch s ws now).2.2.updated +
        (upsert_wallets_batch s ws now).2.2.errors = ws.length := by
  induction ws with
  | nil => intro s now; rfl
  | cons w rest ih =>
    intro s now
    cases heq : (stampTimestamp w now).wallet_address with
    | none =>
      simp only [upsert_wallets_batch, heq]
      have := ih s now
      simp [RunStats.add]
      omega
    | some addr =>
      simp only [upsert_wallets_batch, heq]
      have := ih (replace_one s addr (stampTimestamp w now)).1 now
      split <;> simp [RunStats.add] <;> omega

/-- The error counter counts exactly the records whose dict lacks the
`wallet_address` key. -/
theorem upsert_wallets_batch_error_count (ws : List Doc) :
    ∀ (s : List Doc) (now : ℤ),
      (upsert_wallets_batch s ws now).2.2.errors =
        ws.countP (fun w => w.wallet_address = none) := by
  induction ws with
  | nil => intro s now; rfl
  | cons w rest ih =>
    intro s now
    have haddr := stampTimestamp_wallet_address w now
    cases heq : (stampTimestamp w now).wallet_address with
    | none =>
      rw [heq] at haddr
      simp only [upsert_wallets_batch, heq, List.countP_cons]
      have := ih s now
      simp [RunStats.add, ← haddr]
      omega
    | some addr =>
      rw [heq] at haddr
      simp only [upsert_wallets_batch, heq, List.countP_cons]
      have := ih (replace_one s addr (stampTimestamp w now)).1 now
      split <;> simp [RunStats.add, ← haddr] <;> omega

/-- Batch processing is a left-to-right fold over independent per-record
upserts: splitting the batch anywhere splits the store threading, the
mutated-record list and the statistics accordingly. -/
theorem upsert_wallets_batch_append (ws1 : List Doc) :
    ∀ (ws2 s : List Doc) (now : ℤ),
      upsert_wallets_batch s (ws1 ++ ws2) now =
        ((upsert_wallets_batch (upsert_wallets_batch s ws1 now).1 ws2 now).1,
         (upsert_wallets_batch s ws1 now).2.1 ++
           (upsert_wallets_batch (upsert_wallets_batch s ws1 now).1 ws2 now).2.1,
         RunStats.add (upsert_wallets_batch s ws1 now).2.2
           (upsert_wallets_batch (upsert_wallets_batch s ws1 now).1 ws2 now).2.2) := by
  induction ws1 with
  | nil =>
    intro ws2 s now
    simp [upsert_wallets_batch, RunStats.zero_add]
  | cons w ws1 ih =>
    intro ws2 s now
    cases heq : (stampTimestamp w now).wallet_address with
    | none =>
      simp only [List.cons_append, upsert_wallets_batch, heq, List.append_eq]
      rw [ih]
      simp [RunStats.add_assoc]
    | some addr =>
      simp only [List.cons_append, upsert_wallets_batch, heq, List.append_eq]
      rw [ih]
      simp [RunStats.add_assoc]

/-- C5: the batch upsert processes records independently — splitting a
batch anywhere splits store, records and statistics (so a failing record
only adds to `errors`, counted exactly over the records lacking a
`wallet_address`, and never stops the rest of the batch) — and the three
counters always sum to the length of the batch. -/
theorem upsert_wallets_batch_accounting (s ws1 ws2 : List Doc) (now : ℤ) :
    (upsert_wallets_batch s (ws1 ++ ws2) now =
      ((upsert_wallets_batch (upsert_wallets_batch s ws1 now).1 ws2 now).1,
       (upsert_wallets_batch s ws1 now).2.1 ++
         (upsert_wallets_batch (upsert_wallets_batch s ws1 now).1 ws2 now).2.1,
       RunStats.add (upsert_wallets_batch s ws1 now).2.2
         (upsert_wallets_batch (upsert_wallets_batch s ws1 now).1 ws2 now).2.2)) ∧
    ((upsert_wallets_batch s ws1 now).2.2.inserted +
      (upsert_wallets_batch s ws1 now).2.2.updated +
      (upsert_wallets_batch s ws1 now).2.2.errors = ws1.length) ∧
    ((upsert_wallets_batch s ws1 now).2.2.errors =
      ws1.countP (fun w => w.wallet_address = none)) :=
  ⟨upsert_wallets_batch_append ws1 ws2 s now,
   upsert_wallets_batch_counts ws1 s now,
   upsert_wallets_batch_error_count ws1 s now⟩

/-! ## C4: upsert idempotence -/

/-- Number of stored documents carrying a given wallet address. -/
def countAddr (s : List Doc) (a : String) : ℕ :=
  s.countP (fun d => d.wallet_address = some a)

/-- The operation reports an insert exactly when no stored document already
carries the key address. -/
theorem replace_one_upserted (s : List Doc) (addr : String) (doc : Doc) :
    (replace_one s addr doc).2 =
      !(s.any (fun d => d.wallet_address = some addr)) := by
  induction s with
  | nil => rfl
  | cons d ds ih =>
    by_cases hd : d.wallet_address = some addr
    · simp [replace_one, hd]
    · simp [replace_one, hd, ih]

/-- Replacing-or-inserting keyed on the document's own address leaves
exactly one document with that address, provided there was at most one. -/
theorem replace_one_countAddr_le_one {doc : Doc} {addr : String}
    (hdoc : doc.wallet_address = some addr) :
    ∀ (s : List Doc), countAddr s addr ≤ 1 →
      countAddr (replace_one s addr doc).1 addr = 1 := by
  intro s
  induction s with
  | nil => intro _; simp [countAddr, replace_one, hdoc]
  | cons d ds ih =>
    intro hle
    by_cases hd : d.wallet_address = some addr
    · simp only [replace_one, if_pos hd]
      simp only [countAddr, List.countP_cons, hd, hdoc] at hle ⊢
      simp at hle ⊢
      exact hle
    · simp only [replace_one, if_neg hd]
      simp only [countAddr, List.countP_cons, hd] at hle ⊢
      simp at hle ⊢
      exact ih hle

/-- C4: upserting a record carrying a wallet address twice in succession —
the second call receiving the record as the first call left it — leaves
exactly one stored document for that address (given the store held at most
one beforehand, as the storage layer guarantees), and the second call's
statistics report one update, no insert and no error. -/
theorem upsert_same_record_twice (store : List Doc) (w : Doc) (a : String)
    (t1 t2 : ℤ) (hu : countAddr store a ≤ 1)
    (hw : w.wallet_address = some a) :
    countAddr (upsert_wallets_batch
        (upsert_wallets_batch store [w] t1).1
        (upsert_wallets_batch store [w] t1).2.1 t2).1 a = 1 ∧
      (upsert_wallets_batch
        (upsert_wallets_batch store [w] t1).1
        (upsert_wallets_batch store [w] t1).2.1 t2).2.2 = ⟨0, 1, 0⟩ := by
  have hw1 : (stampTimestamp w t1).wallet_address = some a := by
    rw [stampTimestamp_wallet_address, hw]
  simp only [upsert_wallets_batch, hw1, stampTimestamp_stampTimestamp]
  have h1 : countAddr (replace_one store a (stampTimestamp w t1)).1 a = 1 :=
    replace_one_countAddr_le_one hw1 store hu
  have hmem : (replace_one store a (stampTimestamp w t1)).1.any
      (fun d => d.wallet_address = some a) = true := by
    rw [List.any_eq_true]
    have hpos : 0 < countAddr (replace_one store a (stampTimestamp w t1)).1 a := by
      omega
    rcases List.countP_pos_iff.mp hpos with ⟨d, hdmem, hdp⟩
    exact ⟨d, hdmem, hdp⟩
  have hups : (replace_one (replace_one store a (stampTimestamp w t1)).1 a
      (stampTimestamp w t1)).2 = false := by
    rw [replace_one_upserted, hmem]
    rfl
  rw [hups]
  constructor
  · exact replace_one_countAddr_le_one hw1 _ (by omega)
  · rfl

/-- C4 witness: the double-upsert theorem applied to the empty store and a
concrete record. -/
theorem upsert_same_record_twice_witness :
    countAddr (upsert_wallets_batch
        (upsert_wallets_batch [] [docA1] 1).1
        (upsert_wallets_batch [] [docA1] 1).2.1 2).1 "A" = 1 ∧
      (upsert_wallets_batch
        (upsert_wallets_batch [] [docA1] 1).1
        (upsert_wallets_batch [] [docA1] 1).2.1 2).2.2 = ⟨0, 1, 0⟩ :=
  upsert_same_record_twice [] docA1 "A" 1 2 (by decide) rfl

/-! ## C3: run_scrape stage outcomes -/

/-- The decision table the claim states for `run_scrape`: zero fetched
records returns `false` without calling the store; zero records surviving
the winrate filter returns `true` without calling the store; zero records
surviving enrichment returns `false` without calling the store; otherwise
the store is called once and the run succeeds iff the batch statistics
report zero errors. -/
def run_scrape_claim (raw_wallets : List Doc) (min_winrate : ℚ)
    (store : List Doc) (now : ℤ) : ScrapeOutcome :=
  if raw_wallets.isEmpty then
    ⟨false, store, false⟩
  else if (filter_by_winrate raw_wallets min_winrate).isEmpty then
    ⟨true, store, false⟩
  else if (enrich_wallets (filter_by_winrate raw_wallets min_winrate) now).isEmpty then
    ⟨false, store, false⟩
  else
    ⟨(upsert_wallets_batch store
        (enrich_wallets (filter_by_winrate raw_wallets min_winrate) now) now).2.2.errors = 0,
      (upsert_wallets_batch store
        (enrich_wallets (filter_by_winrate raw_wallets min_winrate) now) now).1,
      true⟩

/-- C3: the boolean result of `run_scrape` is exactly the claimed function
of the stage outcomes, and storage is invoked exactly in the final case. -/
theorem run_scrape_stage_outcomes (raw_wallets : List Doc) (min_winrate : ℚ)
    (store : List Doc) (now : ℤ) :
    run_scrape raw_wallets min_winrate store now =
      run_scrape_claim raw_wallets min_winrate store now := by
  simp only [run_scrape, run_scrape_claim, store_wallets]
  split_ifs <;> rfl

/-! ## C7: query semantics -/

/-- The winrate constraint exactly as the claim words it: the document
satisfies `winrate_7d >= minWinrate`, with the constraint omitted when
`minWinrate` is unset (a null or missing winrate satisfies no numeric
comparison). -/
def claimWinrateOk (min_winrate : Option ℚ) (d : Doc) : Bool :=
  match min_winrate with
  | none => true
  | some m =>
    match d.winrate_7d with
    | some (some q) => m ≤ q
    | _ => false

/-- The lower time bound as the claim words it: `scrapeTimestamp` at least
`startTime`, omitted when the bound is not supplied. -/
def claimStartOk (start_date : Option ℤ) (d : Doc) : Bool :=
  match start_date with
  | none => true
  | some s =>
    match d.scrapeTimestamp with
    | some t => s ≤ t
    | none => false

/-- The upper time bound as the claim words it: `scrapeTimestamp` at most
`endTime`, omitted when the bound is not supplied. -/
def claimEndOk (end_date : Option ℤ) (d : Doc) : Bool :=
  match end_date with
  | none => true
  | some e =>
    match d.scrapeTimestamp with
    | some t => t ≤ e
    | none => false

/-- The query behaviour exactly as the claim words it: the documents
satisfying all supplied constraints, sorted by `scrapeTimestamp` descending
and truncated to the first `limit` results whenever `limit` is provided. -/
def get_wallets_claim (store : List Doc) (min_winrate : Option ℚ)
    (limit : Option ℕ) (start_date end_date : Option ℤ) : List Doc :=
  let sorted := sortTsDesc (store.filter (fun d =>
    claimWinrateOk min_winrate d &&
      (claimStartOk start_date d && claimEndOk end_date d)))
  match limit with
  | none => sorted
  | some n => sorted.take n

/-- The code's winrate clause agrees with the claim's wording. -/
theorem winrateCond_eq_claim (min_winrate : Option ℚ) (d : Doc) :
    winrateCond min_winrate d = claimWinrateOk min_winrate d := rfl

/-- The code's combined date clause agrees with the conjunction of the two
claim-side bounds. -/
theorem dateCond_eq_claim (start_date end_date : Option ℤ) (d : Doc) :
    dateCond start_date end_date d =
      (claimStartOk start_date d && claimEndOk end_date d) := by
  unfold dateCond claimStartOk claimEndOk
  cases start_date <;> cases end_date <;>
    cases hts : d.scrapeTimestamp <;> simp [hts]

/-- A stored document used to exhibit the `limit=0` behaviour. -/
def docStored : Doc :=
  { wallet_address := some "A"
    winrate_7d := some (some 1)
    scrapeTimestamp := some 0
    payload := "stored" }

/-- C7 counterexample: the claim says a provided `limit` always truncates,
but the code guards the cap with `if limit:` and `0` is falsy in Python, so
`limit=0` applies no truncation: the code returns the whole result set
where the claim demands the empty list. -/
theorem get_wallets_limit_zero_not_truncated :
    get_wallets [docStored] none (some 0) none none = [docStored] ∧
      get_wallets_claim [docStored] none (some 0) none none = [] :=
  ⟨rfl, rfl⟩

/-- C7 amended: `get_wallets` returns exactly the documents satisfying the
supplied winrate and inclusive time-range constraints, sorted by
`scrapeTimestamp` descending, truncated to the first `limit` results when a
nonzero `limit` is provided; a `limit` of `0` (falsy) is ignored and
behaves as if no limit had been supplied. -/
theorem get_wallets_spec (store : List Doc) (min_winrate : Option ℚ)
    (limit : Option ℕ) (start_date end_date : Option ℤ) :
    get_wallets store min_winrate limit start_date end_date =
      if limitTruthy limit then
        get_wallets_claim store min_winrate limit start_date end_date
      else
        get_wallets_claim store min_winrate none start_date end_date := by
  have hf : (store.filter (fun d =>
        winrateCond min_winrate d && dateCond start_date end_date d)) =
      store.filter (fun d => claimWinrateOk min_winrate d &&
        (claimStartOk start_date d && claimEndOk end_date d)) := by
    apply List.filter_congr
    intro d _
    rw [winrateCond_eq_claim, dateCond_eq_claim]
  simp only [get_wallets, get_wallets_claim, hf]
  cases limit with
  | none => simp [limitTruthy]
  | some n =>
    cases n with
    | zero => simp [limitTruthy]
    | succ k => simp [limitTruthy]

/-! ## C8: winrate-threshold monotonicity of queries -/

/-- Insertion into the descending-by-timestamp order preserves membership. -/
theorem mem_insertTsDesc {x d : Doc} {l : List Doc} :
    x ∈ insertTsDesc d l ↔ x = d ∨ x ∈ l := by
  induction l with
  | nil => simp [insertTsDesc]
  | cons e es ih =>
    unfold insertTsDesc
    split
    · simp
    · simp [ih]
      tauto

/-- Sorting by timestamp preserves membership. -/
theorem mem_sortTsDesc {x : Doc} {l : List Doc} :
    x ∈ sortTsDesc l ↔ x ∈ l := by
  induction l with
  | nil => simp [sortTsDesc]
  | cons d ds ih => simp [sortTsDesc, mem_insertTsDesc, ih]

/-- Characterisation of membership in an un-capped query result. -/
theorem get_wallets_mem_no_limit (store : List Doc) (min_winrate : Option ℚ)
    (start_date end_date : Option ℤ) (d : Doc) :
    d ∈ get_wallets store min_winrate none start_date end_date ↔
      d ∈ store ∧
        (winrateCond min_winrate d && dateCond start_date end_date d) = true := by
  simp only [get_wallets, limitTruthy]
  rw [if_neg (by simp)]
  rw [mem_sortTsDesc, List.mem_filter]

/-- A document with a lower winrate but the most recent timestamp. -/
def docRecentLow : Doc :=
  { wallet_address := some "recent-low"
    winrate_7d := some (some 5)
    scrapeTimestamp := some 10
    payload := "x" }

/-- A document with a higher winrate but an older timestamp. -/
def docOlderHigh : Doc :=
  { wallet_address := some "older-high"
    winrate_7d := some (some 10)
    scrapeTimestamp := some 5
    payload := "y" }

/-- C8 counterexample: with all other parameters equal — including
`limit=1` — the query at threshold 10 returns the older high-winrate
document, while the query at the lower threshold 5 returns only the more
recent low-winrate document (timestamp ordering decides what the cap
keeps): the threshold-10 result set is not a subset of the threshold-5
result set even though `10 >= 5`. -/
theorem get_wallets_monotonicity_fails_with_limit :
    ((5 : ℚ) ≤ 10) ∧
      docOlderHigh ∈
        get_wallets [docRecentLow, docOlderHigh] (some 10) (some 1) none none ∧
      docOlderHigh ∉
        get_wallets [docRecentLow, docOlderHigh] (some 5) (some 1) none none := by
  decide

/-- C8 amended: when no (nonzero) limit caps the result, raising the
winrate threshold only shrinks the result set: every document returned at
threshold `X` is also returned at any threshold `Y <= X`, all other
parameters equal. -/
theorem get_wallets_minwinrate_monotone (store : List Doc) (X Y : ℚ)
    (start_date end_date : Option ℤ) (hXY : Y ≤ X) (d : Doc)
    (hd : d ∈ get_wallets store (some X) none start_date end_date) :
    d ∈ get_wallets store (some Y) none start_date end_date := by
  rw [get_wallets_mem_no_limit] at hd ⊢
  obtain ⟨hmem, hp⟩ := hd
  rw [Bool.and_eq_true] at hp
  refine ⟨hmem, ?_⟩
  rw [Bool.and_eq_true]
  refine ⟨?_, hp.2⟩
  have h1 := hp.1
  unfold winrateCond at h1 ⊢
  cases hwr : d.winrate_7d with
  | none => rw [hwr] at h1; exact absurd h1 (by simp)
  | some v =>
    cases v with
    | none => rw [hwr] at h1; exact absurd h1 (by simp)
    | some q =>
      rw [hwr] at h1
      simp only [decide_eq_true_eq] at h1 ⊢
      exact le_trans hXY h1

/-- C8 witness: monotonicity applied at thresholds 10 and 5 to a concrete
one-document store. -/
theorem get_wallets_minwinrate_monotone_witness :
    docOlderHigh ∈ get_wallets [docOlderHigh] (some 5) none none none :=
  get_wallets_minwinrate_monotone [docOlderHigh] 10 5 none none (by decide)
    docOlderHigh (by decide)

end SmartMoney

